import Mathlib

/-!
Shallow embedding of the ingredient-normalization / recipe-matching /
analytics core of `app.py` (Flask recipe app), together with theorems
checking the natural-language specification against it.

Conventions of the embedding:
* Python strings are Lean `String`s; `str.lower()` is modelled by mapping
  `Char.toLower` (the data handled by the program is ASCII), `str.strip()`
  by dropping whitespace from both ends.
* Python `dict` records are Lean structures with `Option` fields for keys
  that may be absent (`d.get(k)` is the field itself, `d.get(k, v)` is
  `field.getD v`).
* Python `set`s are `Finset String`; `list(set(xs))` is modelled as
  `List.dedup` (same elements, first-occurrence order; every downstream
  consumer in the program goes back through `set(...)`, so only the
  underlying finset is observable).
* A Python exception escaping a function is modelled by `Except.error`.
-/

/-- Model of Python `str.strip()` on a list of characters: drop whitespace
from the front, then from the back. -/
def stripList (l : List Char) : List Char :=
  ((l.dropWhile Char.isWhitespace).reverse.dropWhile Char.isWhitespace).reverse

/-- Model of Python `str.strip()`. -/
def pyStrip (s : String) : String :=
  ⟨stripList s.data⟩

/-- Model of Python `str.lower()` (ASCII range, which covers all data the
program handles). -/
def pyLower (s : String) : String :=
  ⟨s.data.map Char.toLower⟩

/-- The fixed synonym table `INGREDIENT_MAP` of `app.py`. -/
def INGREDIENT_MAP : List (String × String) :=
  [("bell pepper", "capsicum"),
   ("green chilli", "chilli"),
   ("red chilli", "chilli"),
   ("scallion", "onion"),
   ("spring onion", "onion"),
   ("coriander leaves", "coriander"),
   ("cilantro", "coriander"),
   ("eggplant", "brinjal")]

/-- Model of `INGREDIENT_MAP.get(ing, ing)` (the keys of the dict are
distinct, so association-list lookup is faithful). -/
def mapGet (k : String) : String :=
  match INGREDIENT_MAP.find? (fun p => p.1 = k) with
  | some p => p.2
  | none => k

/-- The per-entry transformation of `normalize_ingredients`:
`INGREDIENT_MAP.get(ing.lower().strip(), ing.lower().strip())`. -/
def canon (s : String) : String :=
  mapGet (pyStrip (pyLower s))

/-- `normalize_ingredients` of `app.py`: canonicalize each entry, then
`list(set(...))` (modelled as `dedup`, see the header comment). -/
def normalize_ingredients (l : List String) : List String :=
  (l.map canon).dedup

/-- A step entry in a recipe's `steps` array: either a structured record
(a dict with optional `text` and `time` keys) or any non-dict JSON value. -/
inductive StepVal where
  | obj (text : Option String) (time : Option Int)
  | nonObj
deriving DecidableEq

/-- A Catalog recipe record.  `r.get(k)` is the field itself (absent keys are
`none`); `r.get("steps", [])` is modelled by letting an absent `steps` key be
the empty list. -/
structure Recipe where
  name : Option String
  ingredients : Option (List String)
  preview : Option String
  difficulty : Option String
  time : Option Int
  calories : Option Int
  steps : List StepVal
deriving DecidableEq

/-- `set(normalize_ingredients(recipe.get("ingredients", [])))`. -/
def recipeSetOf (r : Recipe) : Finset String :=
  (normalize_ingredients (r.ingredients.getD [])).toFinset

/-- The intersection score `len(recipe_set & user_set)` of `find_best_recipe`. -/
def scoreOf (userSet : Finset String) (r : Recipe) : Nat :=
  (recipeSetOf r ∩ userSet).card

/-- One iteration of the `find_best_recipe` loop: the running pair is
`(best_recipe, best_score)`, updated only on a strictly greater score. -/
def bestStep (userSet : Finset String) (acc : Option Recipe × Nat) (r : Recipe) :
    Option Recipe × Nat :=
  if scoreOf userSet r > acc.2 then (some r, scoreOf userSet r) else acc

/-- `find_best_recipe` of `app.py` (the caller passes already-normalized
ingredients; the function itself only takes `set(user_ingredients)`). -/
def find_best_recipe (db : List Recipe) (user_ingredients : List String) : Option Recipe :=
  (db.foldl (bestStep user_ingredients.toFinset) (none, 0)).1

/-- `difficulty_rank.get(recipe.get("difficulty"), 3)`. -/
def rankOf (d : Option String) : Nat :=
  match d with
  | some s => if s = "Easy" then 0 else if s = "Medium" then 1 else if s = "Hard" then 2 else 3
  | none => 3

/-- Python `x["time"] or 999`: both an absent (`None`) and a zero time are
falsy and replaced by the sentinel. -/
def timeOr999 (t : Option Int) : Int :=
  match t with
  | none => 999
  | some v => if v = 0 then 999 else v

/-- A match candidate as built by `find_all_possible_recipes`.  `missing` is a
Python `list(missing_set)`; only its underlying set is observable, so it is
kept as a `Finset`. -/
structure Candidate where
  name : Option String
  preview : String
  difficulty : Option String
  time : Option Int
  calories : Option Int
  missing : Finset String
  missing_count : Nat
  difficulty_rank : Nat
deriving DecidableEq

/-- Decision and construction for one recipe of the `find_all_possible_recipes`
loop.  The float test `len(common)/len(recipe_set) >= 0.6` is embedded as the
exact inequality `5*|common| >= 3*|recipe_set|`: the literal `0.6` and a
correctly rounded IEEE quotient agree with the exact comparison for all set
sizes below about 2^50, far beyond any ingredient list. -/
def toCandidate (userSet : Finset String) (r : Recipe) : Option Candidate :=
  let rs := recipeSetOf r
  let common := rs ∩ userSet
  let missing := rs \ userSet
  if rs.card = 0 then none
  else if 5 * common.card ≥ 3 * rs.card ∧ missing.card ≤ 1 then
    some ⟨r.name, r.preview.getD "", r.difficulty, r.time, r.calories,
          missing, missing.card, rankOf r.difficulty⟩
  else none

/-- The sort key `(missing_count, difficulty_rank, time or 999)`. -/
def candKey (c : Candidate) : Nat × Nat × Int :=
  (c.missing_count, c.difficulty_rank, timeOr999 c.time)

/-- Ascending lexicographic comparison of key tuples (Python tuple order). -/
def keyLe (a b : Nat × Nat × Int) : Prop :=
  a.1 < b.1 ∨ (a.1 = b.1 ∧ (a.2.1 < b.2.1 ∨ (a.2.1 = b.2.1 ∧ a.2.2 ≤ b.2.2)))

instance : DecidableRel keyLe := fun a b => by
  unfold keyLe; exact inferInstance

/-- The candidate ordering used by `matches.sort(key=...)`. -/
def candLe (a b : Candidate) : Prop :=
  keyLe (candKey a) (candKey b)

instance : DecidableRel candLe := fun a b => by
  unfold candLe; exact inferInstance

instance : IsTotal Candidate candLe :=
  ⟨fun a b => by unfold candLe keyLe; omega⟩

instance : IsTrans Candidate candLe :=
  ⟨fun a b c hab hbc => by
    unfold candLe keyLe at hab hbc ⊢; omega⟩

/-- Python `matches.sort(key=...)` is a stable ascending sort by `candKey`;
the output of a stable sort by a fixed key is unique, so insertion sort is an
exact model. -/
def sortCands (l : List Candidate) : List Candidate :=
  List.insertionSort candLe l

/-- `find_all_possible_recipes` of `app.py`: re-normalize the user list,
filter the Catalog by the inclusion rule, sort by the key tuple. -/
def find_all_possible_recipes (db : List Recipe) (user_ingredients : List String) :
    List Candidate :=
  let userSet := (normalize_ingredients user_ingredients).toFinset
  sortCands (db.filterMap (toCandidate userSet))

/-- A dish entry of the `/get-dish-options` response: candidate dicts and the
synthetic fallback dict have different key sets, so all keys are optional. -/
structure Dish where
  name : Option String
  preview : Option String
  difficulty : Option String
  time : Option Int
  calories : Option Int
  missing : Finset String
  missing_count : Option Nat
  difficulty_rank : Option Nat
  ai_generated : Option Bool
deriving DecidableEq

/-- The JSON projection of a match candidate. -/
def candToDish (c : Candidate) : Dish :=
  ⟨c.name, some c.preview, c.difficulty, c.time, c.calories, c.missing,
   some c.missing_count, some c.difficulty_rank, none⟩

/-- The synthetic fallback dish of `get_dish_options`. -/
def fallbackStirFry : Dish :=
  ⟨some "Quick Kitchen Stir Fry", none, some "Easy", some 15, some 250, ∅,
   none, none, some true⟩

/-- The `/get-dish-options` response shape. -/
structure DishResponse where
  count : Nat
  dishes : List Dish
deriving DecidableEq

/-- `get_dish_options` of `app.py`: normalize the posted ingredients, rank,
and substitute the single fallback dish when nothing qualifies. -/
def get_dish_options (db : List Recipe) (raw : List String) : DishResponse :=
  let ingredients := normalize_ingredients raw
  let dishes := find_all_possible_recipes db ingredients
  if dishes = [] then ⟨1, [fallbackStirFry]⟩
  else ⟨dishes.length, dishes.map candToDish⟩

/-- A projected step `{description, time}` of `generate_recipe`. -/
structure TimedStep where
  description : Option String
  time : Int
deriving DecidableEq

/-- The step projection loop of `generate_recipe`: structured steps keep
`step.get("text")` and `step.get("time", 5)`; non-dict entries are dropped. -/
def projectSteps (steps : List StepVal) : List TimedStep :=
  steps.filterMap fun s =>
    match s with
    | .obj text time => some ⟨text, time.getD 5⟩
    | .nonObj => none

/-- Python `sum(s["time"] for s in timed_steps)`. -/
def timesSum (l : List TimedStep) : Int :=
  match l with
  | [] => 0
  | t :: ts => t.time + timesSum ts

/-- The `/generate-recipe` response shape. -/
structure GeneratedRecipe where
  name : Option String
  ingredients : Option (List String)
  calories : Option Int
  difficulty : Option String
  steps : List TimedStep
  total_time : Int
deriving DecidableEq

/-- The synthesized default recipe of `generate_recipe`. -/
def customDish (ingredients : List String) : Recipe :=
  ⟨some "Custom Dish", some ingredients, none, some "Easy", none, some 220,
   [.obj (some "Cook everything well") (some 10)]⟩

/-- The `selected_dish` lookup predicate:
`r.get("name", "").strip().lower() == selected_dish.strip().lower()`. -/
def nameMatches (selected : String) (r : Recipe) : Bool :=
  pyLower (pyStrip (r.name.getD "")) == pyLower (pyStrip selected)

/-- `generate_recipe` of `app.py`.  `if selected_dish:` is Python truthiness,
so the name lookup runs only for a present, non-empty name; `next(...)` over a
generator is `List.find?`. -/
def generate_recipe (db : List Recipe) (raw : List String) (selected_dish : Option String) :
    GeneratedRecipe :=
  let ingredients := normalize_ingredients raw
  let fromName : Option Recipe :=
    match selected_dish with
    | some name =>
      if name = "" then find_best_recipe db ingredients else db.find? (nameMatches name)
    | none => find_best_recipe db ingredients
  let recipe := fromName.getD (customDish ingredients)
  let timed := projectSteps recipe.steps
  ⟨recipe.name, recipe.ingredients, recipe.calories, recipe.difficulty, timed, timesSum timed⟩

/-- A cooking-memory record.  `calories` is the raw form string (absent or
null collapses to `none`, both coerce to 0 downstream);
`mem.get("ingredients", [])` lets an absent ingredient list be `[]`. -/
structure Memory where
  name : Option String
  calories : Option String
  ingredients : List String
  image : Option String
  note : Option String
  cooked_at : Option String
deriving DecidableEq

/-- `delete_memory` of `app.py`: the JSON `index` may be any integer; in-range
indices remove storage position `len - 1 - index`, anything else is a no-op. -/
def delete_memory (memories : List Memory) (index : Int) : List Memory :=
  if 0 ≤ index ∧ index < (memories.length : Int) then
    memories.eraseIdx (memories.length - 1 - index.toNat)
  else memories

/-- Model of Python `int(str)`: optional surrounding whitespace, an optional
sign, then at least one digit. -/
def pyInt (s : String) : Option Int :=
  let t := stripList s.data
  let sd : Int × List Char :=
    match t with
    | '-' :: rest => (-1, rest)
    | '+' :: rest => (1, rest)
    | _ => (1, t)
  if sd.2 ≠ [] ∧ sd.2.all Char.isDigit then
    some (sd.1 * (sd.2.foldl (fun a c => a * 10 + (c.toNat - 48)) 0 : Nat))
  else none

/-- `int(mem.get("calories", 0))` inside `try/except` with fallback 0. -/
def coerceCalories (c : Option String) : Int :=
  match c with
  | none => 0
  | some s => (pyInt s).getD 0

/-- The month abbreviations matched by `%b` (case-insensitively). -/
def monthTable : List (String × Nat) :=
  [("jan", 1), ("feb", 2), ("mar", 3), ("apr", 4), ("may", 5), ("jun", 6),
   ("jul", 7), ("aug", 8), ("sep", 9), ("oct", 10), ("nov", 11), ("dec", 12)]

def monthNum (s : String) : Option Nat :=
  (monthTable.find? (fun p => p.1 = pyLower s)).map Prod.snd

def isLeap (y : Int) : Bool :=
  y % 4 = 0 ∧ (y % 100 ≠ 0 ∨ y % 400 = 0)

def daysInMonth (y : Int) (m : Nat) : Nat :=
  if m = 2 then (if isLeap y then 29 else 28)
  else if m = 4 ∨ m = 6 ∨ m = 9 ∨ m = 11 then 30
  else 31

/-- Days since 1970-01-01 in the proleptic Gregorian calendar (the civil
day-count algorithm; all divisions occur on nonnegative values for years
from 1 on, which the parser guarantees). -/
def daysFromCivil (y : Int) (m d : Nat) : Int :=
  let yy : Int := if m ≤ 2 then y - 1 else y
  let era : Int := (if 0 ≤ yy then yy else yy - 399) / 400
  let yoe : Int := yy - era * 400
  let mp : Int := ((m : Int) + 9) % 12
  let doy : Int := (153 * mp + 2) / 5 + (d : Int) - 1
  let doe : Int := yoe * 365 + yoe / 4 - yoe / 100 + doy
  era * 146097 + doe - 719468

/-- `datetime.weekday()`: Monday = 0.  1970-01-01 was a Thursday (= 3). -/
def weekdayOf (y : Int) (m d : Nat) : Nat :=
  ((daysFromCivil y m d + 3) % 7).toNat

def parseNatDigits (l : List Char) : Option Nat :=
  if l ≠ [] ∧ l.all Char.isDigit then
    some (l.foldl (fun a c => a * 10 + (c.toNat - 48)) 0)
  else none

/-- Split a character list at every occurrence of a separator character. -/
def splitChar (sep : Char) : List Char → List (List Char)
  | [] => [[]]
  | c :: rest =>
    let r := splitChar sep rest
    if c = sep then [] :: r
    else
      match r with
      | [] => [[c]]
      | w :: ws => (c :: w) :: ws

/-- Model of `datetime.strptime(s, "%d %b %Y, %I:%M %p")`, yielding the
parsed (year, month, day) on success and `none` where Python raises
`ValueError`: whitespace-separated tokens `D[D]`, month abbreviation,
`YYYY,` (with the literal comma), `H[H]:M[M]`, `AM`/`PM`, with Python's
range validation (day checked against the month and leap year, 12-hour
clock, minutes below 60, year at least 1). -/
def strptime_cooked (s : String) : Option (Int × Nat × Nat) :=
  let toks := (splitChar ' ' s.data).filter (fun w => w ≠ [])
  match toks with
  | [dTok, monTok, yTok, hmTok, apTok] =>
    match yTok.reverse with
    | ',' :: yRev =>
      let yDigits := yRev.reverse
      match splitChar ':' hmTok with
      | [hTok, mTok] => do
        let d ← parseNatDigits dTok
        let mo ← monthNum ⟨monTok⟩
        let y ← parseNatDigits yDigits
        let h ← parseNatDigits hTok
        let mi ← parseNatDigits mTok
        let ap := pyLower ⟨apTok⟩
        if (ap = "am" ∨ ap = "pm") ∧ dTok.length ≤ 2 ∧ yDigits.length = 4 ∧
            hTok.length ≤ 2 ∧ mTok.length ≤ 2 ∧ 1 ≤ y ∧
            1 ≤ d ∧ d ≤ daysInMonth (y : Int) mo ∧ 1 ≤ h ∧ h ≤ 12 ∧ mi ≤ 59 then
          some ((y : Int), mo, d)
        else none
      | _ => none
    | _ => none
  | _ => none

/-- `datetime.strptime(cooked_time, "%d %b %Y, %I:%M %p").weekday()`. -/
def strptimeWeekday (s : String) : Option Nat :=
  (strptime_cooked s).map (fun t => weekdayOf t.1 t.2.1 t.2.2)

/-- `weekly_calories[weekday] += cal`. -/
def addAt : List Int → Nat → Int → List Int
  | [], _, _ => []
  | x :: xs, 0, c => (x + c) :: xs
  | x :: xs, Nat.succ n, c => x :: addAt xs n c

/-- `ingredient_counter[ing] += 1` on an insertion-ordered association list
(Python `Counter` preserves first-seen key order). -/
def bump : List (String × Nat) → String → List (String × Nat)
  | [], k => [(k, 1)]
  | (k0, c) :: rest, k =>
    if k0 = k then (k0, c + 1) :: rest else (k0, c) :: bump rest k

/-- `ingredient_counter.most_common(1)`: a key of maximal count; Python's
sort is stable and descending by count, so ties resolve to first-seen. -/
def most_common1 (counter : List (String × Nat)) : Option String :=
  match counter with
  | [] => none
  | p :: rest => some ((rest.foldl (fun b q => if q.2 > b.2 then q else b) p).1)

/-- The `/analytics-data` response shape. -/
structure Analytics where
  totalCalories : Int
  totalRecipes : Nat
  topIngredient : String
  weeklyCalories : List Int
  ingredientLabels : List String
  ingredientCounts : List Nat
deriving DecidableEq

/-- The state threaded through the aggregation loop. -/
structure AggState where
  total : Int
  weekly : List Int
  counter : List (String × Nat)
deriving DecidableEq

/-- One iteration of the `analytics_data` loop.  Note the faithful absence of
a `try/except` around the `strptime` call: a present, non-empty but
unparsable `cooked_at` raises `ValueError`, modelled as `Except.error`. -/
def processMemory (st : AggState) (m : Memory) : Except String AggState :=
  let cal := coerceCalories m.calories
  let total := st.total + cal
  let weekly : Except String (List Int) :=
    match m.cooked_at with
    | none => .ok st.weekly
    | some s =>
      if s = "" then .ok st.weekly
      else
        match strptimeWeekday s with
        | some wd => .ok (addAt st.weekly wd cal)
        | none => .error ("ValueError: time data does not match format: " ++ s)
  match weekly with
  | .error e => .error e
  | .ok w => .ok ⟨total, w, m.ingredients.foldl bump st.counter⟩

def aggregateMemories : List Memory → AggState → Except String AggState
  | [], st => .ok st
  | m :: ms, st =>
    match processMemory st m with
    | .error e => .error e
    | .ok st2 => aggregateMemories ms st2

/-- `analytics_data` of `app.py`.  Input `none` models a session without a
`"memories"` key; the result is `Except.error` exactly when the Python loop
raises. -/
def analytics_data (sessionMems : Option (List Memory)) : Except String Analytics :=
  match sessionMems with
  | none => .ok ⟨0, 0, "-", [0, 0, 0, 0, 0, 0, 0], [], []⟩
  | some memories =>
    match aggregateMemories memories ⟨0, [0, 0, 0, 0, 0, 0, 0], []⟩ with
    | .error e => .error e
    | .ok st =>
      .ok ⟨st.total, memories.length, (most_common1 st.counter).getD "-",
           st.weekly, st.counter.map Prod.fst, st.counter.map Prod.snd⟩

/-- Concrete catalog recipe used in counterexamples: one ingredient that a
user without it scores 0 against. -/
def rSnow : Recipe :=
  ⟨some "Snow Soup", some ["snow"], none, none, none, none, []⟩

/-- Second score-0 recipe for the tie counterexample. -/
def rIce : Recipe :=
  ⟨some "Ice Salad", some ["ice"], none, none, none, none, []⟩

/-- A recipe with a positive score against `["bread"]`. -/
def rToast : Recipe :=
  ⟨some "Toast", some ["bread"], none, none, none, none, []⟩

/-- A three-ingredient recipe for the inclusion-boundary statements. -/
def rTrio : Recipe :=
  ⟨some "Trio", some ["aa", "bb", "cc"], none, none, none, none, []⟩

/-- Concrete memories for the delete-addressing witness. -/
def mem0 : Memory := ⟨some "m0", none, [], none, none, none⟩

def mem1 : Memory := ⟨some "m1", none, [], none, none, none⟩

def mem2 : Memory := ⟨some "m2", none, [], none, none, none⟩

/-- A memory whose `cooked_at` does not parse under the fixed format. -/
def memBadTime : Memory :=
  ⟨some "burnt", some "100", ["rice"], none, none, some "yesterday evening"⟩

/-- A memory without any timestamp. -/
def memNoTime : Memory :=
  ⟨some "plain", some "70", ["rice"], none, none, none⟩

/-- A memory with a well-formed timestamp (3 Feb 2025 was a Monday). -/
def memMonday : Memory :=
  ⟨some "soup", some "200", ["rice", "peas"], none, none, some "03 Feb 2025, 10:30 AM"⟩

theorem toLower_toLower (c : Char) : c.toLower.toLower = c.toLower := by
  unfold Char.toLower
  by_cases h : c.toNat ≥ 65 ∧ c.toNat ≤ 90
  · rw [if_pos h]
    have hv : (c.toNat + 32).isValidChar := Or.inl (by omega)
    have ht : (Char.ofNat (c.toNat + 32)).toNat = c.toNat + 32 := by
      rw [Char.ofNat, dif_pos hv]; rfl
    rw [if_neg]; rw [ht]; omega
  · rw [if_neg h, if_neg h]

theorem dropWhile_idem (p : Char → Bool) (l : List Char) :
    (l.dropWhile p).dropWhile p = l.dropWhile p := by
  induction l with
  | nil => rfl
  | cons c l ih =>
    by_cases h : p c
    · simp [List.dropWhile_cons, h, ih]
    · simp [List.dropWhile_cons, h]

theorem dropWhile_head_false (p : Char → Bool) (l : List Char) (c : Char)
    (rest : List Char) (h : l.dropWhile p = c :: rest) : p c = false := by
  induction l with
  | nil => simp at h
  | cons d l ih =>
    by_cases hd : p d
    · rw [List.dropWhile_cons, if_pos hd] at h
      exact ih h
    · rw [List.dropWhile_cons, if_neg hd] at h
      cases h
      simpa using hd

theorem dropWhile_of_head_eq (p : Char → Bool) (l : List Char)
    (h : ∀ c rest, l = c :: rest → p c = false) : l.dropWhile p = l := by
  cases l with
  | nil => rfl
  | cons c rest => rw [List.dropWhile_cons, if_neg (by simp [h c rest rfl])]

theorem getLast?_dropWhile (p : Char → Bool) (l : List Char)
    (h : l.dropWhile p ≠ []) : (l.dropWhile p).getLast? = l.getLast? := by
  induction l with
  | nil => simp at h
  | cons c l ih =>
    by_cases hc : p c
    · rw [List.dropWhile_cons, if_pos hc] at h ⊢
      rw [ih h]
      have hl : l ≠ [] := by
        intro he; rw [he] at h; simp at h
      cases l with
      | nil => simp at hl
      | cons d m => simp
    · rw [List.dropWhile_cons, if_neg hc]

theorem stripList_head_false (l : List Char) (c : Char) (rest : List Char)
    (h : stripList l = c :: rest) : Char.isWhitespace c = false := by
  unfold stripList at h
  set A := l.dropWhile Char.isWhitespace with hA
  have hne : A.reverse.dropWhile Char.isWhitespace ≠ [] := by
    intro he
    rw [he] at h; simp at h
  have hlast : (A.reverse.dropWhile Char.isWhitespace).getLast? = A.reverse.getLast? :=
    getLast?_dropWhile _ _ hne
  have hhead : (A.reverse.dropWhile Char.isWhitespace).reverse.head? = some c := by
    rw [h]; rfl
  rw [List.head?_reverse] at hhead
  rw [hhead] at hlast
  rw [List.getLast?_reverse] at hlast
  cases hAcase : A with
  | nil => rw [hAcase] at hlast; simp at hlast
  | cons d m =>
    rw [hAcase] at hlast
    simp at hlast
    have : Char.isWhitespace d = false := dropWhile_head_false _ l d m (by rw [← hA, hAcase])
    rw [← hlast] at this
    exact this

theorem stripList_idem (l : List Char) : stripList (stripList l) = stripList l := by
  have h1 : (stripList l).dropWhile Char.isWhitespace = stripList l := by
    apply dropWhile_of_head_eq
    intro c rest h
    exact stripList_head_false l c rest h
  have h2 : (stripList l).reverse =
      (l.dropWhile Char.isWhitespace).reverse.dropWhile Char.isWhitespace := by
    unfold stripList; rw [List.reverse_reverse]
  calc stripList (stripList l)
      = (((stripList l).dropWhile Char.isWhitespace).reverse.dropWhile
          Char.isWhitespace).reverse := rfl
    _ = ((stripList l).reverse.dropWhile Char.isWhitespace).reverse := by rw [h1]
    _ = (((l.dropWhile Char.isWhitespace).reverse.dropWhile Char.isWhitespace).dropWhile
          Char.isWhitespace).reverse := by rw [h2]
    _ = ((l.dropWhile Char.isWhitespace).reverse.dropWhile Char.isWhitespace).reverse := by
          rw [dropWhile_idem]
    _ = stripList l := rfl

theorem mem_stripList (l : List Char) (c : Char) (h : c ∈ stripList l) : c ∈ l := by
  unfold stripList at h
  rw [List.mem_reverse] at h
  have h2 := (List.dropWhile_sublist (l := (l.dropWhile Char.isWhitespace).reverse)
    (p := Char.isWhitespace)).mem h
  rw [List.mem_reverse] at h2
  exact (List.dropWhile_sublist (l := l) (p := Char.isWhitespace)).mem h2

theorem map_fixed {α : Type} (f : α → α) :
    ∀ l : List α, (∀ a ∈ l, f a = a) → l.map f = l := by
  intro l h
  induction l with
  | nil => rfl
  | cons a l ih =>
    simp only [List.map_cons]
    rw [h a (List.mem_cons_self a l), ih (fun b hb => h b (List.mem_cons_of_mem a hb))]

theorem pyLower_char_fixed (s : String) (c : Char) (h : c ∈ (pyLower s).data) :
    c.toLower = c := by
  unfold pyLower at h
  simp only [List.mem_map] at h
  obtain ⟨a, _, rfl⟩ := h
  exact toLower_toLower a

theorem pyLower_of_pyStrip_pyLower (s : String) :
    pyLower (pyStrip (pyLower s)) = pyStrip (pyLower s) := by
  show (⟨(stripList (pyLower s).data).map Char.toLower⟩ : String) = ⟨stripList (pyLower s).data⟩
  congr 1
  apply map_fixed
  intro c hc
  exact pyLower_char_fixed s c (mem_stripList _ c hc)

theorem pyStrip_pyStrip (s : String) : pyStrip (pyStrip s) = pyStrip s := by
  show (⟨stripList (stripList s.data)⟩ : String) = ⟨stripList s.data⟩
  congr 1
  exact stripList_idem s.data

theorem canon_of_mem_map (p : String × String) (hp : p ∈ INGREDIENT_MAP) :
    canon p.2 = p.2 := by
  simp only [INGREDIENT_MAP, List.mem_cons, List.mem_singleton, List.not_mem_nil, or_false] at hp
  rcases hp with rfl | rfl | rfl | rfl | rfl | rfl | rfl | rfl <;> decide

theorem canon_canon (s : String) : canon (canon s) = canon s := by
  have hLt : pyLower (pyStrip (pyLower s)) = pyStrip (pyLower s) := pyLower_of_pyStrip_pyLower s
  have hSt : pyStrip (pyStrip (pyLower s)) = pyStrip (pyLower s) := pyStrip_pyStrip (pyLower s)
  cases h : INGREDIENT_MAP.find? (fun p => p.1 = pyStrip (pyLower s)) with
  | none =>
    have h2 : canon s = pyStrip (pyLower s) := by
      unfold canon mapGet
      rw [h]
    rw [h2]
    unfold canon
    rw [hLt, hSt]
    unfold mapGet
    rw [h]
  | some p =>
    have h2 : canon s = p.2 := by
      unfold canon mapGet
      rw [h]
    rw [h2]
    exact canon_of_mem_map p (List.mem_of_find?_eq_some h)

theorem normalize_normalize (x : List String) :
    normalize_ingredients (normalize_ingredients x) = normalize_ingredients x := by
  unfold normalize_ingredients
  have hmap : ((x.map canon).dedup).map canon = (x.map canon).dedup := by
    apply map_fixed
    intro a ha
    rw [List.mem_dedup] at ha
    simp only [List.mem_map] at ha
    obtain ⟨b, _, rfl⟩ := ha
    exact canon_canon b
  rw [hmap, List.dedup_idem]

/-- C6: normalization, seen at the level of the produced set of canonical
tokens, is idempotent, independent of the input order, free of duplicates,
and sends the sample raw list `["Onion", "onion", " Onion "]` to the single
canonical token `"onion"`. -/
theorem normalization_set_algebra_c6 :
    (∀ x : List String,
        (normalize_ingredients (normalize_ingredients x)).toFinset
          = (normalize_ingredients x).toFinset)
    ∧ (∀ x y : List String, x.Perm y →
        (normalize_ingredients x).toFinset = (normalize_ingredients y).toFinset)
    ∧ (∀ x : List String, (normalize_ingredients x).Nodup)
    ∧ (normalize_ingredients ["Onion", "onion", " Onion "]).toFinset = {"onion"} := by
  refine ⟨?_, ?_, ?_, ?_⟩
  · intro x
    rw [normalize_normalize]
  · intro x y hxy
    unfold normalize_ingredients
    ext a
    simp only [List.mem_toFinset, List.mem_dedup, List.mem_map]
    constructor
    · rintro ⟨b, hb, rfl⟩
      exact ⟨b, hxy.mem_iff.mp hb, rfl⟩
    · rintro ⟨b, hb, rfl⟩
      exact ⟨b, hxy.mem_iff.mpr hb, rfl⟩
  · intro x
    exact List.nodup_dedup _
  · decide

theorem normalization_set_algebra_c6_witness :
    (["Garlic", "onion"] : List String).Perm ["onion", "Garlic"]
    ∧ (normalize_ingredients ["Garlic", "onion"]).toFinset
        = (normalize_ingredients ["onion", "Garlic"]).toFinset :=
  ⟨by decide, normalization_set_algebra_c6.2.1 ["Garlic", "onion"] ["onion", "Garlic"] (by decide)⟩

theorem bestFold_some (u : Finset String) :
    ∀ (l : List Recipe) (r : Recipe) (s : Nat),
      ∃ r2 s2, l.foldl (bestStep u) (some r, s) = (some r2, s2) := by
  intro l
  induction l with
  | nil => exact fun r s => ⟨r, s, rfl⟩
  | cons x l ih =>
    intro r s
    rw [List.foldl_cons]
    unfold bestStep
    by_cases h : scoreOf u x > s
    · rw [if_pos h]
      exact ih x (scoreOf u x)
    · rw [if_neg h]
      exact ih r s

theorem bestFold_none_iff (u : Finset String) :
    ∀ l : List Recipe, (l.foldl (bestStep u) (none, 0)).1 = none ↔ ∀ r ∈ l, scoreOf u r = 0 := by
  intro l
  induction l with
  | nil => simp
  | cons x l ih =>
    rw [List.foldl_cons]
    by_cases h : scoreOf u x > 0
    · have hx : bestStep u (none, 0) x = (some x, scoreOf u x) := by
        unfold bestStep; rw [if_pos h]
      rw [hx]
      constructor
      · intro hfold
        obtain ⟨r2, s2, heq⟩ := bestFold_some u l x (scoreOf u x)
        rw [heq] at hfold
        simp at hfold
      · intro hall
        have := hall x (List.mem_cons_self x l)
        omega
    · have hx : bestStep u (none, 0) x = (none, 0) := by
        unfold bestStep; rw [if_neg h]
      rw [hx]
      constructor
      · intro hfold r hr
        rcases List.mem_cons.mp hr with rfl | hr2
        · omega
        · exact (ih.mp hfold) r hr2
      · intro hall
        exact ih.mpr (fun r hr => hall r (List.mem_cons_of_mem x hr))

/-- C2 (amended): `find_best_recipe` returns null exactly when every Catalog
recipe has intersection score 0 with the user set — in particular on an empty
Catalog, but also on a non-empty one; a score-0 recipe is never returned,
not even the first one. -/
theorem find_best_none_iff_c2 (db : List Recipe) (user : List String) :
    find_best_recipe db user = none ↔ ∀ r ∈ db, scoreOf user.toFinset r = 0 :=
  bestFold_none_iff user.toFinset db

theorem find_best_none_iff_c2_witness :
    (∀ r ∈ [rIce], scoreOf (["rock"] : List String).toFinset r = 0)
    ∧ find_best_recipe [rIce] ["rock"] = none :=
  ⟨by decide, (find_best_none_iff_c2 [rIce] ["rock"]).mpr (by decide)⟩

/-- C2 counterexample: a one-recipe Catalog whose only recipe scores 0
against the user set.  The claim says this first-and-unbeaten recipe is
returned; the code returns null (`best_score` starts at 0 and is only beaten
by a strictly greater score). -/
theorem find_best_zero_score_cex_c2 :
    scoreOf (["rock"] : List String).toFinset rSnow = 0
    ∧ find_best_recipe [rSnow] ["rock"] = none
    ∧ find_best_recipe [rSnow] ["rock"] ≠ some rSnow := by
  refine ⟨by decide, by decide, by decide⟩

theorem bestStep_update (u : Finset String) (acc : Option Recipe × Nat) (r : Recipe)
    (h : scoreOf u r > acc.2) : bestStep u acc r = (some r, scoreOf u r) := by
  unfold bestStep
  rw [if_pos h]

theorem bestFold_lt (u : Finset String) (m : Nat) :
    ∀ (l : List Recipe) (acc : Option Recipe × Nat),
      (∀ x ∈ l, scoreOf u x < m) → acc.2 < m →
      (l.foldl (bestStep u) acc).2 < m := by
  intro l
  induction l with
  | nil => exact fun acc _ hacc => hacc
  | cons x l ih =>
    intro acc hl hacc
    rw [List.foldl_cons]
    apply ih
    · exact fun y hy => hl y (List.mem_cons_of_mem x hy)
    · unfold bestStep
      by_cases h : scoreOf u x > acc.2
      · rw [if_pos h]
        exact hl x (List.mem_cons_self x l)
      · rw [if_neg h]
        exact hacc

theorem bestFold_no_update (u : Finset String) :
    ∀ (l : List Recipe) (r : Recipe) (s : Nat),
      (∀ x ∈ l, scoreOf u x ≤ s) →
      l.foldl (bestStep u) (some r, s) = (some r, s) := by
  intro l
  induction l with
  | nil => exact fun r s _ => rfl
  | cons x l ih =>
    intro r s hl
    rw [List.foldl_cons]
    have hx : bestStep u (some r, s) x = (some r, s) := by
      unfold bestStep
      rw [if_neg (by have := hl x (List.mem_cons_self x l); omega)]
    rw [hx]
    exact ih r s (fun y hy => hl y (List.mem_cons_of_mem x hy))

/-- C7 (amended): when the maximal intersection score is positive, the first
Catalog recipe achieving it is returned and later recipes with an equal score
never replace it (strict greater-than comparison); when the maximal score is
0 the function returns null instead of any first recipe. -/
theorem find_best_first_positive_max_c7 (user : List String) (l1 l2 : List Recipe) (r : Recipe)
    (hpos : 0 < scoreOf user.toFinset r)
    (h1 : ∀ x ∈ l1, scoreOf user.toFinset x < scoreOf user.toFinset r)
    (h2 : ∀ x ∈ l2, scoreOf user.toFinset x ≤ scoreOf user.toFinset r) :
    find_best_recipe (l1 ++ r :: l2) user = some r := by
  unfold find_best_recipe
  rw [List.foldl_append, List.foldl_cons]
  have ha : (l1.foldl (bestStep user.toFinset) (none, 0)).2 < scoreOf user.toFinset r :=
    bestFold_lt user.toFinset (scoreOf user.toFinset r) l1 (none, 0) h1 hpos
  rw [bestStep_update user.toFinset (l1.foldl (bestStep user.toFinset) (none, 0)) r ha,
    bestFold_no_update user.toFinset l2 r (scoreOf user.toFinset r) h2]

theorem find_best_first_positive_max_c7_witness :
    (0 < scoreOf (["bread"] : List String).toFinset rToast
      ∧ (∀ x ∈ [rSnow], scoreOf (["bread"] : List String).toFinset x
            < scoreOf (["bread"] : List String).toFinset rToast)
      ∧ (∀ x ∈ [rIce], scoreOf (["bread"] : List String).toFinset x
            ≤ scoreOf (["bread"] : List String).toFinset rToast))
    ∧ find_best_recipe ([rSnow] ++ rToast :: [rIce]) ["bread"] = some rToast :=
  ⟨⟨by decide, by decide, by decide⟩,
   find_best_first_positive_max_c7 ["bread"] [rSnow] [rIce] rToast
     (by decide) (by decide) (by decide)⟩

/-- C7 counterexample: two recipes that tie on the maximal score (both score
0).  The claim says the first of them is returned; the code returns null. -/
theorem find_best_tie_zero_cex_c7 :
    scoreOf (["rock"] : List String).toFinset rSnow
      = scoreOf (["rock"] : List String).toFinset rIce
    ∧ find_best_recipe [rSnow, rIce] ["rock"] = none
    ∧ find_best_recipe [rSnow, rIce] ["rock"] ≠ some rSnow := by
  refine ⟨by decide, by decide, by decide⟩

/-- C3: deleting at a zero-based index `i` with `0 <= i < n` removes exactly
the storage position `n - 1 - i` (index 0 deletes the newest memory), keeping
every other element in relative order; any out-of-range index (negative or
`>= n`) returns the list unchanged. -/
theorem delete_memory_addressing_c3 (l : List Memory) (i : Int) :
    (0 ≤ i → i < (l.length : Int) →
      delete_memory l i
        = l.take (l.length - 1 - i.toNat) ++ l.drop (l.length - i.toNat))
    ∧ ((i < 0 ∨ (l.length : Int) ≤ i) → delete_memory l i = l) := by
  constructor
  · intro h0 hlen
    unfold delete_memory
    rw [if_pos ⟨h0, hlen⟩, List.eraseIdx_eq_take_drop_succ]
    have : l.length - 1 - i.toNat + 1 = l.length - i.toNat := by omega
    rw [this]
  · intro h
    unfold delete_memory
    rw [if_neg (by omega)]

theorem delete_memory_addressing_c3_witness :
    ((0 : Int) ≤ 0 ∧ (0 : Int) < (([mem0, mem1, mem2] : List Memory).length : Int))
    ∧ delete_memory [mem0, mem1, mem2] 0 = [mem0, mem1] := by
  refine ⟨⟨by decide, by decide⟩, ?_⟩
  have h := (delete_memory_addressing_c3 [mem0, mem1, mem2] 0).1 (by decide) (by decide)
  exact h.trans (by decide)

theorem toCandidate_isSome_iff (u : Finset String) (r : Recipe) :
    (toCandidate u r).isSome ↔
      ((recipeSetOf r).card ≠ 0 ∧
       5 * (recipeSetOf r ∩ u).card ≥ 3 * (recipeSetOf r).card ∧
       (recipeSetOf r \ u).card ≤ 1) := by
  simp only [toCandidate]
  split_ifs with h1 h2 <;> simp_all

theorem mem_find_all_iff (db : List Recipe) (user : List String) (c : Candidate) :
    c ∈ find_all_possible_recipes db user ↔
      ∃ r ∈ db, toCandidate ((normalize_ingredients user).toFinset) r = some c := by
  unfold find_all_possible_recipes sortCands
  rw [List.mem_insertionSort, List.mem_filterMap]

/-- C4 (amended): a Catalog recipe contributes a candidate exactly when its
normalized ingredient set is non-empty (guarding the ratio division), the
match ratio is at least 0.6 and at most one ingredient is missing; the
returned list holds exactly the candidates so produced.  A recipe missing 2
of its 3 ingredients (ratio 1/3) is excluded; the combination "ratio exactly
0.6 with exactly 1 missing" is arithmetically impossible, and the tightest
included boundary with one missing ingredient is ratio 2/3, e.g. a
3-ingredient recipe with 1 missing is included. -/
theorem ranked_inclusion_rule_c4 :
    (∀ (u : Finset String) (r : Recipe),
        (toCandidate u r).isSome ↔
          ((recipeSetOf r).card ≠ 0 ∧
           5 * (recipeSetOf r ∩ u).card ≥ 3 * (recipeSetOf r).card ∧
           (recipeSetOf r \ u).card ≤ 1))
    ∧ (∀ (db : List Recipe) (user : List String) (c : Candidate),
        c ∈ find_all_possible_recipes db user ↔
          ∃ r ∈ db, toCandidate ((normalize_ingredients user).toFinset) r = some c)
    ∧ toCandidate ({"aa"} : Finset String) rTrio = none
    ∧ (toCandidate ({"aa", "bb"} : Finset String) rTrio).isSome
    ∧ ((recipeSetOf rTrio) \ ({"aa", "bb"} : Finset String)).card = 1 := by
  exact ⟨toCandidate_isSome_iff, mem_find_all_iff, by decide, by decide, by decide⟩

theorem ranked_inclusion_rule_c4_witness :
    ((recipeSetOf rTrio).card ≠ 0 ∧
     5 * (recipeSetOf rTrio ∩ ({"aa", "bb"} : Finset String)).card
       ≥ 3 * (recipeSetOf rTrio).card ∧
     (recipeSetOf rTrio \ ({"aa", "bb"} : Finset String)).card ≤ 1)
    ∧ (toCandidate ({"aa", "bb"} : Finset String) rTrio).isSome :=
  ⟨by decide, (ranked_inclusion_rule_c4.1 ({"aa", "bb"} : Finset String) rTrio).mpr (by decide)⟩

/-- C4 counterexample: the claim's second boundary instance cannot exist — no
recipe can have match ratio exactly 0.6 together with exactly one missing
ingredient, since the common and missing parts partition the recipe set and
`5 * (n - 1) = 3 * n` has no solution in naturals. -/
theorem ratio_boundary_impossible_cex_c4 :
    ¬ ∃ (u : Finset String) (r : Recipe),
        5 * (recipeSetOf r ∩ u).card = 3 * (recipeSetOf r).card ∧
        (recipeSetOf r \ u).card = 1 := by
  rintro ⟨u, r, h1, h2⟩
  have h3 : (recipeSetOf r ∩ u).card + (recipeSetOf r \ u).card = (recipeSetOf r).card :=
    Finset.card_inter_add_card_sdiff (recipeSetOf r) u
  omega

theorem keyLe_refl (a : Nat × Nat × Int) : keyLe a a := by
  unfold keyLe
  omega

theorem candLe_of_candKey_eq {c d : Candidate} (h : candKey c = candKey d) : candLe c d := by
  unfold candLe
  rw [h]
  exact keyLe_refl _

theorem filter_orderedInsert (k : Nat × Nat × Int) (c : Candidate) :
    ∀ l : List Candidate,
      (List.orderedInsert candLe c l).filter (fun d => decide (candKey d = k))
        = if candKey c = k
          then c :: l.filter (fun d => decide (candKey d = k))
          else l.filter (fun d => decide (candKey d = k)) := by
  intro l
  induction l with
  | nil =>
    by_cases hk : candKey c = k <;> simp [List.orderedInsert, hk]
  | cons d ds ih =>
    by_cases hcd : candLe c d
    · rw [List.orderedInsert_of_le candLe ds hcd]
      by_cases hk : candKey c = k <;> simp [List.filter_cons, hk]
    · have hrw : List.orderedInsert candLe c (d :: ds) = d :: List.orderedInsert candLe c ds := by
        simp [List.orderedInsert, hcd]
      rw [hrw]
      by_cases hk : candKey c = k
      · have hdk : candKey d ≠ k := fun hdk => hcd (candLe_of_candKey_eq (by rw [hk, hdk]))
        simp [List.filter_cons, ih, hk, hdk]
      · simp [List.filter_cons, ih, hk]

theorem filter_insertionSort (k : Nat × Nat × Int) :
    ∀ l : List Candidate,
      (List.insertionSort candLe l).filter (fun d => decide (candKey d = k))
        = l.filter (fun d => decide (candKey d = k)) := by
  intro l
  induction l with
  | nil => rfl
  | cons c cs ih =>
    simp only [List.insertionSort]
    rw [filter_orderedInsert]
    by_cases hk : candKey c = k
    · rw [if_pos hk, ih, List.filter_cons]
      simp [hk]
    · rw [if_neg hk, ih, List.filter_cons]
      simp [hk]

/-- C5: the ranked list is sorted ascending by the key tuple (missing count,
difficulty rank, time-or-999) with Easy, Medium, Hard mapping to 0, 1, 2,
anything else (including absent) to 3, and absent or falsy time replaced by
999; the sort is stable: for every key value, the candidates carrying that
key appear in exactly the order the Catalog pass produced them, and the list
is a permutation of that pass. -/
theorem ranked_sort_stable_c5 :
    (∀ (db : List Recipe) (user : List String),
        List.Sorted candLe (find_all_possible_recipes db user))
    ∧ (∀ (db : List Recipe) (user : List String) (k : Nat × Nat × Int),
        (find_all_possible_recipes db user).filter (fun c => decide (candKey c = k))
          = (db.filterMap (toCandidate ((normalize_ingredients user).toFinset))).filter
              (fun c => decide (candKey c = k)))
    ∧ (∀ (db : List Recipe) (user : List String),
        (find_all_possible_recipes db user).Perm
          (db.filterMap (toCandidate ((normalize_ingredients user).toFinset))))
    ∧ rankOf (some "Easy") = 0 ∧ rankOf (some "Medium") = 1 ∧ rankOf (some "Hard") = 2
    ∧ rankOf (some "Chef") = 3 ∧ rankOf none = 3
    ∧ timeOr999 none = 999 ∧ timeOr999 (some 0) = 999 ∧ timeOr999 (some 30) = 30 := by
  refine ⟨?_, ?_, ?_, by decide, by decide, by decide, by decide, by decide,
    by decide, by decide, by decide⟩
  · intro db user
    exact List.sorted_insertionSort candLe _
  · intro db user k
    exact filter_insertionSort k _
  · intro db user
    exact List.perm_insertionSort candLe _

/-- C8: whenever no Catalog recipe qualifies under the inclusion rule, the
dish-options response is exactly one synthetic dish — name "Quick Kitchen
Stir Fry", difficulty Easy, time 15, calories 250, empty missing list,
flagged as generated — and in general the dish list is never empty. -/
theorem dish_options_fallback_c8 :
    (∀ (db : List Recipe) (raw : List String),
        find_all_possible_recipes db (normalize_ingredients raw) = [] →
        get_dish_options db raw
          = ⟨1, [⟨some "Quick Kitchen Stir Fry", none, some "Easy", some 15, some 250, ∅,
                  none, none, some true⟩]⟩)
    ∧ (∀ (db : List Recipe) (raw : List String), (get_dish_options db raw).dishes ≠ []) := by
  constructor
  · intro db raw h
    simp only [get_dish_options]
    rw [if_pos h]
    rfl
  · intro db raw
    simp only [get_dish_options]
    split_ifs with h
    · simp
    · cases hd : find_all_possible_recipes db (normalize_ingredients raw) with
      | nil => exact absurd hd h
      | cons x xs => simp [hd]

theorem dish_options_fallback_c8_witness :
    find_all_possible_recipes [] (normalize_ingredients []) = []
    ∧ get_dish_options [] []
        = ⟨1, [⟨some "Quick Kitchen Stir Fry", none, some "Easy", some 15, some 250, ∅,
                none, none, some true⟩]⟩ :=
  ⟨rfl, dish_options_fallback_c8.1 [] [] rfl⟩

theorem timesSum_eq_sum_map : ∀ l : List TimedStep, timesSum l = (l.map TimedStep.time).sum := by
  intro l
  induction l with
  | nil => rfl
  | cons t ts ih => simp [timesSum, ih]

theorem projectSteps_split :
    ∀ steps : List StepVal,
      projectSteps steps
        = (steps.filterMap (fun s => match s with
            | StepVal.obj t ti => some (t, ti)
            | StepVal.nonObj => none)).map (fun p => (⟨p.1, p.2.getD 5⟩ : TimedStep)) := by
  intro steps
  induction steps with
  | nil => rfl
  | cons s ss ih =>
    cases s with
    | obj t ti =>
      simp only [projectSteps] at ih ⊢
      simp [List.filterMap_cons, ih]
    | nonObj =>
      simp only [projectSteps] at ih ⊢
      simp [List.filterMap_cons, ih]

/-- C9: step assembly keeps exactly the structured step records (non-dict
entries are silently dropped, order preserved), fills a missing duration
with the default 5, and reports a total time equal to the sum of the
projected (post-default-fill) durations. -/
theorem step_projection_c9 :
    (∀ steps : List StepVal,
        projectSteps steps
          = (steps.filterMap (fun s => match s with
              | StepVal.obj t ti => some (t, ti)
              | StepVal.nonObj => none)).map (fun p => (⟨p.1, p.2.getD 5⟩ : TimedStep)))
    ∧ (∀ (db : List Recipe) (raw : List String) (sel : Option String),
        (generate_recipe db raw sel).total_time
          = ((generate_recipe db raw sel).steps.map TimedStep.time).sum)
    ∧ projectSteps [StepVal.obj (some "mix") none, StepVal.nonObj,
        StepVal.obj (some "fry") (some 7)]
        = [⟨some "mix", 5⟩, ⟨some "fry", 7⟩]
    ∧ timesSum [(⟨some "mix", 5⟩ : TimedStep), ⟨some "fry", 7⟩] = 12 := by
  refine ⟨projectSteps_split, ?_, by decide, by decide⟩
  intro db raw sel
  simp only [generate_recipe]
  exact timesSum_eq_sum_map _

/-- C10 (amended): when a non-empty dish name is supplied and matches no
Catalog recipe case-insensitively after trimming, the best-single-match
fallback is never consulted: the result is directly the synthesized "Custom
Dish" default (the user's normalized ingredients, calories 220, difficulty
Easy, the single step "Cook everything well" at 10 minutes, total time 10);
an empty supplied name behaves exactly like an absent one (Python
truthiness), and only then does best-single-match run. -/
theorem generate_name_resolution_c10 :
    (∀ (db : List Recipe) (raw : List String) (name : String),
        name ≠ "" → (∀ r ∈ db, nameMatches name r = false) →
        generate_recipe db raw (some name)
          = ⟨some "Custom Dish", some (normalize_ingredients raw), some 220, some "Easy",
             [⟨some "Cook everything well", 10⟩], 10⟩)
    ∧ (∀ (db : List Recipe) (raw : List String),
        generate_recipe db raw (some "") = generate_recipe db raw none) := by
  constructor
  · intro db raw name hne hnom
    have hfind : db.find? (nameMatches name) = none := by
      rw [List.find?_eq_none]
      intro x hx
      rw [hnom x hx]
      simp
    simp only [generate_recipe, hfind, if_neg hne]
    rfl
  · intro db raw
    rfl

theorem generate_name_resolution_c10_witness :
    ("zzz" ≠ "" ∧ (∀ r ∈ ([] : List Recipe), nameMatches "zzz" r = false))
    ∧ generate_recipe [] [] (some "zzz")
        = ⟨some "Custom Dish", some (normalize_ingredients []), some 220, some "Easy",
           [⟨some "Cook everything well", 10⟩], 10⟩ :=
  ⟨⟨by decide, by simp⟩, generate_name_resolution_c10.1 [] [] "zzz" (by decide) (by simp)⟩

/-- C10 counterexample: with the supplied name `""` — which matches no
Catalog recipe — the code still consults best-single-match (Python `if
selected_dish:` treats `""` as absent) and returns the Toast recipe, not the
"Custom Dish" default the claim requires for any supplied-but-unmatched
name. -/
theorem generate_empty_name_cex_c10 :
    nameMatches "" rToast = false
    ∧ (generate_recipe [rToast] ["bread"] (some "")).name = some "Toast"
    ∧ (generate_recipe [rToast] ["bread"] (some "")).name ≠ some "Custom Dish" := by
  refine ⟨by decide, by decide, by decide⟩

/-- C1 (code bug): contrary to the specified per-record isolation, a present
but unparsable `cooked_at` aborts the whole aggregation — the `strptime`
call has no `try/except` — so no totals are produced at all, even for
well-formed memories earlier in the list.  A memory with an *absent*
timestamp does behave as specified: its coerced calories reach the totals,
it is counted, and only the weekly bucketing skips it. -/
theorem analytics_unparsable_aborts_c1 :
    analytics_data (some [memBadTime])
      = Except.error "ValueError: time data does not match format: yesterday evening"
    ∧ analytics_data (some [memMonday, memBadTime])
      = Except.error "ValueError: time data does not match format: yesterday evening"
    ∧ analytics_data (some [memNoTime, memMonday])
      = Except.ok ⟨270, 2, "rice", [200, 0, 0, 0, 0, 0, 0], ["rice", "peas"], [2, 1]⟩ := by
  refine ⟨rfl, rfl, rfl⟩
